import Mathlib

/-
Verification of the vcsstate git-strategy code: a shallow embedding of the
pure parsing and classification logic of the git28 / git17 strategies and of
the older vcs package, together with theorems about the documented behavior.

Tool output is modelled as `List Char`, one `Char` per byte (all relevant
bytes are ASCII). A subprocess invocation is modelled by an `ExecResult`
record carrying the captured stdout, stderr, and whether the process exited
with status zero (in Go, whether `err == nil`). A Go runtime panic (index out
of range on a slice or string) is modelled by `Option`: a function returns
`none` exactly where the Go code would panic.
-/

/-- Character with code 39 (single quote), kept out of string literals. -/
def squo : Char := Char.ofNat 39

/-- Embedding of Go `strings.Split(s, sep)` for a one-character separator:
splits on every occurrence of `sep`; the result is never empty, and
`gosplit sep [] = [[]]`, matching Go. -/
def gosplit (sep : Char) : List Char → List (List Char)
  | [] => [[]]
  | c :: rest =>
    if c = sep then [] :: gosplit sep rest
    else
      match gosplit sep rest with
      | [] => [[c]]
      | p :: ps => (c :: p) :: ps

/-- Embedding of Go `strings.SplitN(s, sep, 2)` for a one-character separator:
splits at the first occurrence of `sep` only. -/
def gosplitN2 (sep : Char) : List Char → List (List Char)
  | [] => [[]]
  | c :: rest =>
    if c = sep then [[], rest]
    else
      match gosplitN2 sep rest with
      | [] => [[c]]
      | p :: ps => (c :: p) :: ps

/-- Embedding of the Go slice expression `s[n:]` on a string: panics (`none`)
when `n` exceeds the length, otherwise drops the first `n` bytes. -/
def godrop (n : Nat) (s : List Char) : Option (List Char) :=
  if n ≤ s.length then some (s.drop n) else none

/-- Embedding of Go `strings.TrimSuffix(s, suf)`. -/
def trimSuffix (suf s : List Char) : List Char :=
  if suf.isSuffixOf s then s.take (s.length - suf.length) else s

/-- Embedding of Go `bytes.Index(s, pat)`: index of the first occurrence of
`pat` inside `s`, or `none` where Go returns -1. -/
def indexOfSub (pat : List Char) : List Char → Option Nat
  | [] => if pat = [] then some 0 else none
  | c :: rest =>
    if pat.isPrefixOf (c :: rest) then some 0
    else (indexOfSub pat rest).map (· + 1)

/-- Result of running the external git binary once: captured stdout and
stderr, and whether the process exited successfully (Go `err == nil`). -/
structure ExecResult where
  stdout : List Char
  stderr : List Char
  exitOk : Bool
deriving DecidableEq

/-- Errors returned by the parse helpers: the sentinel `errBranchNotFound`
or an `errors.New` message. -/
inductive ParseErr where
  | branchNotFound
  | msg (s : String)
deriving DecidableEq

/-- Errors returned by the strategy operations. `execErr` stands for the raw
`exec.ExitError` returned unwrapped; `generic` for an error built by
`fmt.Errorf` from the exit error and trimmed stderr. -/
inductive VCSErr where
  | execErr
  | shortOutput (n : Nat)
  | errNoRemote
  | notFound (msg : List Char)
  | generic (msg : List Char)
  | branchNotFound
  | parseMsg (s : String)
deriving DecidableEq

/-- Conversion of a parse-helper error into the error the operation
returns, mirroring Go returning the same error value. -/
def toVCSErr : ParseErr → VCSErr
  | ParseErr.branchNotFound => VCSErr.branchNotFound
  | ParseErr.msg s => VCSErr.parseMsg s

/-- Decidable equality for `Except`, used to evaluate the operations on
concrete inputs. -/
instance {e a : Type} [DecidableEq e] [DecidableEq a] : DecidableEq (Except e a) := fun x y =>
  match x, y with
  | Except.error u, Except.error v =>
    if h : u = v then isTrue (by rw [h])
    else isFalse (fun hh => h (by cases hh; rfl))
  | Except.error _, Except.ok _ => isFalse (fun hh => Except.noConfusion hh)
  | Except.ok _, Except.error _ => isFalse (fun hh => Except.noConfusion hh)
  | Except.ok u, Except.ok v =>
    if h : u = v then isTrue (by rw [h])
    else isFalse (fun hh => h (by cases hh; rfl))

/-- Length of a git revision hash (constant `gitRevisionLength`). -/
def gitRevisionLength : Nat := 40

/-- Stderr line git emits when `remote get-url origin` finds no origin. -/
def noSuchRemoteOrigin : List Char :=
  "fatal: No such remote ".toList ++ squo :: "origin".toList ++ squo :: "\n".toList

/-- Stderr prefix git emits when ls-remote is pointed at a repository whose
origin remote is missing. -/
def originNotRepo : List Char :=
  "fatal: ".toList ++ squo :: "origin".toList ++ squo ::
    " does not appear to be a git repository\n".toList

/-- Loop body of `parseGit28LsRemote`: scans lines, keeping the branch and
revision accumulated so far, with the early return when both are found.
`parts[1]` out of range is a Go panic, modelled by `none`. -/
def g28LsRemoteLoop : List (List Char) → List Char → List Char →
    Option (List Char × List Char × Option ParseErr)
  | [], branch, revision =>
    if branch = [] ∧ revision ≠ [] then
      some ([], revision, some ParseErr.branchNotFound)
    else
      some ([], [], some (ParseErr.msg "HEAD branch or revision not found in ls-remote output"))
  | line :: rest, branch, revision =>
    match (gosplitN2 '\t' line).get? 1 with
    | none => none
    | some part1 =>
      if part1 ≠ "HEAD".toList then g28LsRemoteLoop rest branch revision
      else
        let part0 := (gosplitN2 '\t' line).headI
        let branch2 :=
          if List.isPrefixOf "ref: refs/heads/".toList part0 then part0.drop 16 else branch
        let revision2 :=
          if List.isPrefixOf "ref: refs/heads/".toList part0 then revision else part0
        if branch2 ≠ [] ∧ revision2 ≠ [] then some (branch2, revision2, none)
        else g28LsRemoteLoop rest branch2 revision2

/-- Embedding of `parseGit28LsRemote`: parses branch and revision from
`ls-remote --symref` output; the `branchNotFound` error carries the revision,
as the Go function returns `"", revision, errBranchNotFound`. -/
def parseGit28LsRemote (out : List Char) : Option (List Char × List Char × Option ParseErr) :=
  if out = [] then some ([], [], some (ParseErr.msg "empty ls-remote output"))
  else g28LsRemoteLoop (gosplit '\n' out.dropLast) [] []

/-- Loop body of `guessBranch`: keeps the branch guessed so far; a matching
line overwrites it unless it is already "master". The unguarded
`ref[len("refs/heads/"):]` slice is `godrop 11`, a potential panic. -/
def guessBranchLoop (revision : List Char) : List (List Char) → List Char →
    Option (List Char)
  | [], branch => some branch
  | line :: rest, branch =>
    match (gosplitN2 '\t' line).get? 1 with
    | none => none
    | some ref =>
      let rev := (gosplitN2 '\t' line).headI
      if rev ≠ revision ∨ ref = "HEAD".toList then guessBranchLoop revision rest branch
      else if branch ≠ "master".toList then
        match godrop 11 ref with
        | none => none
        | some b => guessBranchLoop revision rest b
      else guessBranchLoop revision rest branch

/-- Embedding of `guessBranch`: best-effort guess of the HEAD branch from
plain ls-remote output, given the already-extracted HEAD revision. -/
def guessBranch (out revision : List Char) : Option (List Char × Option ParseErr) :=
  if out = [] then some ([], some (ParseErr.msg "empty ls-remote output"))
  else
    match guessBranchLoop revision (gosplit '\n' out.dropLast) [] with
    | none => none
    | some branch =>
      if branch = [] then some ([], some ParseErr.branchNotFound)
      else some (branch, none)

/-- Loop body of `parseGit17LsRemote`: a full `strings.Split` on tab, a HEAD
line records the revision, and a line whose revision matches overwrites the
branch unless it is already "master". -/
def g17LsRemoteLoop : List (List Char) → List Char → List Char →
    Option (List Char × List Char)
  | [], branch, revision => some (branch, revision)
  | line :: rest, branch, revision =>
    match (gosplit '\t' line).get? 1 with
    | none => none
    | some ref =>
      let rev := (gosplit '\t' line).headI
      if ref = "HEAD".toList then g17LsRemoteLoop rest branch rev
      else if rev = revision ∧ branch ≠ "master".toList then
        match godrop 11 ref with
        | none => none
        | some b => g17LsRemoteLoop rest b revision
      else g17LsRemoteLoop rest branch revision

/-- Embedding of `parseGit17LsRemote`: parses branch and revision from
ls-remote output without the symref option. -/
def parseGit17LsRemote (out : List Char) : Option (List Char × List Char × Option ParseErr) :=
  if out = [] then some ([], [], some (ParseErr.msg "empty ls-remote output"))
  else
    match g17LsRemoteLoop (gosplit '\n' out.dropLast) [] [] with
    | none => none
    | some (branch, revision) =>
      if branch = [] ∨ revision = [] then
        some ([], [], some (ParseErr.msg "HEAD branch or revision not found in ls-remote output"))
      else some (branch, revision, none)

/-- Loop body of `parseGit17Remote`: finds the first line naming the origin
remote with a fetch URL. `some none` means the loop finished without a match. -/
def g17RemoteLoop : List (List Char) → Option (Option (List Char))
  | [] => some none
  | line :: rest =>
    match (gosplit '\t' line).get? 1 with
    | none => none
    | some urlKind =>
      let name := (gosplit '\t' line).headI
      if name ≠ "origin".toList then g17RemoteLoop rest
      else if ¬ List.isSuffixOf " (fetch)".toList urlKind then g17RemoteLoop rest
      else some (some (urlKind.take (urlKind.length - 8)))

/-- Embedding of `parseGit17Remote`: parses the fetch URL of the origin
remote out of `git remote -v` output. -/
def parseGit17Remote (out : List Char) : Option (Except String (List Char)) :=
  if out = [] then some (Except.error "no origin remote")
  else
    match g17RemoteLoop (gosplit '\n' out.dropLast) with
    | none => none
    | some none => some (Except.error "no origin remote")
    | some (some url) => some (Except.ok url)

/-- Embedding of `git28.LocalRevision` after the subprocess ran: a failed
invocation returns its error; output shorter than 40 bytes is an error;
otherwise the first 40 bytes are the revision. -/
def git28LocalRevision (res : ExecResult) : Except VCSErr (List Char) :=
  if res.exitOk = false then Except.error VCSErr.execErr
  else if res.stdout.length < gitRevisionLength then
    Except.error (VCSErr.shortOutput res.stdout.length)
  else Except.ok (res.stdout.take gitRevisionLength)

/-- Embedding of `git17.LocalRevision`; the body is identical to the git28
variant in the source. -/
def git17LocalRevision (res : ExecResult) : Except VCSErr (List Char) :=
  if res.exitOk = false then Except.error VCSErr.execErr
  else if res.stdout.length < gitRevisionLength then
    Except.error (VCSErr.shortOutput res.stdout.length)
  else Except.ok (res.stdout.take gitRevisionLength)

/-- Embedding of `CheckGitRepoLocal` from the vcs package: the empty string
is its failure value, since that API has no error return. -/
def CheckGitRepoLocal (res : ExecResult) : List Char :=
  if res.exitOk = true ∧ gitRevisionLength ≤ res.stdout.length then
    res.stdout.take gitRevisionLength
  else []

/-- Stderr prefix that makes a containment check answer false: the formatted
string `"error: no such commit <revision>\n"`. -/
def noSuchCommit (revision : List Char) : List Char :=
  "error: no such commit ".toList ++ revision ++ "\n".toList

/-- Embedding of `git28.Contains`: on exit zero, true exactly when stdout is
the literal marker line; on the no-such-commit stderr prefix, false with no
error; any other failure returns the exit error. -/
def git28Contains (revision : List Char) (res : ExecResult) : Except VCSErr Bool :=
  if res.exitOk then Except.ok (res.stdout == "contains\n".toList)
  else if List.isPrefixOf (noSuchCommit revision) res.stderr then Except.ok false
  else Except.error VCSErr.execErr

/-- Embedding of `git28.RemoteContains`; identical classification to
`git28.Contains` in the source. -/
def git28RemoteContains (revision : List Char) (res : ExecResult) : Except VCSErr Bool :=
  if res.exitOk then Except.ok (res.stdout == "contains\n".toList)
  else if List.isPrefixOf (noSuchCommit revision) res.stderr then Except.ok false
  else Except.error VCSErr.execErr

/-- Embedding of `git17.Contains`: on exit zero, true exactly when stdout is
the expected branch listing, either the current-branch form starting with an
asterisk or the two-space form. -/
def git17Contains (revision defaultBranch : List Char) (res : ExecResult) :
    Except VCSErr Bool :=
  if res.exitOk then
    Except.ok (res.stdout == "* ".toList ++ defaultBranch ++ "\n".toList ||
      res.stdout == "  ".toList ++ defaultBranch ++ "\n".toList)
  else if List.isPrefixOf (noSuchCommit revision) res.stderr then Except.ok false
  else Except.error VCSErr.execErr

/-- Embedding of `git17.RemoteContains`: the expected listing is the single
remote-branch line. -/
def git17RemoteContains (revision defaultBranch : List Char) (res : ExecResult) :
    Except VCSErr Bool :=
  if res.exitOk then
    Except.ok (res.stdout == "  origin/".toList ++ defaultBranch ++ "\n".toList)
  else if List.isPrefixOf (noSuchCommit revision) res.stderr then Except.ok false
  else Except.error VCSErr.execErr

/-- Embedding of `git28.RemoteURL`: the exact no-such-remote stderr maps to
`ErrNoRemote`, any other failure returns the exit error, and success strips
one trailing newline. -/
def git28RemoteURL (res : ExecResult) : Except VCSErr (List Char) :=
  if res.exitOk = false ∧ res.stderr = noSuchRemoteOrigin then
    Except.error VCSErr.errNoRemote
  else if res.exitOk = false then Except.error VCSErr.execErr
  else Except.ok (trimSuffix "\n".toList res.stdout)

/-- Embedding of `git17.RemoteURL`: runs `git remote -v` and any failure of
`parseGit17Remote` is reported as `ErrNoRemote`. -/
def git17RemoteURL (res : ExecResult) : Option (Except VCSErr (List Char)) :=
  if res.exitOk = false then some (Except.error VCSErr.execErr)
  else
    match parseGit17Remote res.stdout with
    | none => none
    | some (Except.error _) => some (Except.error VCSErr.errNoRemote)
    | some (Except.ok url) => some (Except.ok url)

/-- Embedding of the identical `remoteBranch` methods of git28 and git17:
parses the `HEAD branch:` line out of `git remote show origin` output. -/
def remoteBranch (res : ExecResult) : Except VCSErr (List Char) :=
  if res.exitOk = false then
    Except.error (VCSErr.generic (trimSuffix "\n".toList res.stderr))
  else
    match indexOfSub "\n  HEAD branch: ".toList res.stdout with
    | none => Except.error (VCSErr.generic "no HEAD branch".toList)
    | some i0 =>
      let i := i0 + ("\n  HEAD branch: ".toList).length
      let nl :=
        match List.findIdx? (fun c => c = '\n') (res.stdout.drop i) with
        | none => res.stdout.length
        | some k => k + i
      Except.ok ((res.stdout.take nl).drop i)

/-- Embedding of `git28.RemoteBranchAndRevision`, taking the results of the
ls-remote invocation and of the fallback `git remote show origin` invocation:
classifies stderr, parses the symref output, and on the branch-not-found
sentinel falls back to `remoteBranch`, keeping the extracted revision. -/
def git28RemoteBranchAndRevision (lsRes showRes : ExecResult) :
    Option (Except VCSErr (List Char × List Char)) :=
  if lsRes.exitOk = false ∧ List.isPrefixOf originNotRepo lsRes.stderr then
    some (Except.error VCSErr.errNoRemote)
  else if lsRes.exitOk = false ∧
      List.isPrefixOf "remote: Repository not found.\n".toList lsRes.stderr then
    some (Except.error (VCSErr.notFound (trimSuffix "\n".toList lsRes.stderr)))
  else if lsRes.exitOk = false then
    some (Except.error (VCSErr.generic (trimSuffix "\n".toList lsRes.stderr)))
  else
    match parseGit28LsRemote lsRes.stdout with
    | none => none
    | some (branch, revision, none) => some (Except.ok (branch, revision))
    | some (_, revision, some ParseErr.branchNotFound) =>
      match remoteBranch showRes with
      | Except.error e => some (Except.error e)
      | Except.ok branch => some (Except.ok (branch, revision))
    | some (_, _, some (ParseErr.msg m)) => some (Except.error (VCSErr.parseMsg m))

/-- Embedding of `remoteGit28.RemoteBranchAndRevision`: same flow, but the
fallback on the branch-not-found sentinel is `guessBranch` over the same
ls-remote output, keeping the extracted revision. -/
def remoteGit28RemoteBranchAndRevision (lsRes : ExecResult) :
    Option (Except VCSErr (List Char × List Char)) :=
  if lsRes.exitOk = false ∧
      List.isPrefixOf "remote: Repository not found.\n".toList lsRes.stderr then
    some (Except.error (VCSErr.notFound (trimSuffix "\n".toList lsRes.stderr)))
  else if lsRes.exitOk = false then
    some (Except.error (VCSErr.generic (trimSuffix "\n".toList lsRes.stderr)))
  else
    match parseGit28LsRemote lsRes.stdout with
    | none => none
    | some (branch, revision, none) => some (Except.ok (branch, revision))
    | some (_, revision, some ParseErr.branchNotFound) =>
      match guessBranch lsRes.stdout revision with
      | none => none
      | some (_, some e) => some (Except.error (toVCSErr e))
      | some (branch, none) => some (Except.ok (branch, revision))
    | some (_, _, some (ParseErr.msg m)) => some (Except.error (VCSErr.parseMsg m))

/-- Embedding of `git17.RemoteBranchAndRevision`: classifies stderr, takes
the revision from `parseGit17LsRemote`, and always determines the branch via
`remoteBranch`. -/
def git17RemoteBranchAndRevision (lsRes showRes : ExecResult) :
    Option (Except VCSErr (List Char × List Char)) :=
  if lsRes.exitOk = false ∧ List.isPrefixOf originNotRepo lsRes.stderr then
    some (Except.error VCSErr.errNoRemote)
  else if lsRes.exitOk = false then
    some (Except.error (VCSErr.generic (trimSuffix "\n".toList lsRes.stderr)))
  else
    match parseGit17LsRemote lsRes.stdout with
    | none => none
    | some (_, _, some e) => some (Except.error (toVCSErr e))
    | some (_, revision, none) =>
      match remoteBranch showRes with
      | Except.error e => some (Except.error e)
      | Except.ok branch => some (Except.ok (branch, revision))

/-- Hex digit test for the revision character-set property. -/
def isHexDigit (c : Char) : Bool := "0123456789abcdefABCDEF".toList.contains c

theorem gosplit_ne_nil (sep : Char) : ∀ xs : List Char, gosplit sep xs ≠ []
  | [] => by simp [gosplit]
  | c :: rest => by
    by_cases hc : c = sep
    · simp [gosplit, hc]
    · simp only [gosplit, if_neg hc]
      cases hg : gosplit sep rest <;> simp

theorem gosplit_no_mem {sep : Char} : ∀ {xs : List Char}, sep ∉ xs → gosplit sep xs = [xs]
  | [], _ => by simp [gosplit]
  | c :: rest, h => by
    have hc : ¬ c = sep := fun hcs => h (by simp [hcs])
    have hr : sep ∉ rest := fun hm => h (by simp [hm])
    simp only [gosplit, if_neg hc, gosplit_no_mem hr]

theorem gosplit_append {sep : Char} :
    ∀ {xs : List Char} (ys : List Char), sep ∉ xs →
      gosplit sep (xs ++ sep :: ys) = xs :: gosplit sep ys
  | [], ys, _ => by simp [gosplit]
  | c :: rest, ys, h => by
    have hc : ¬ c = sep := fun hcs => h (by simp [hcs])
    have hr : sep ∉ rest := fun hm => h (by simp [hm])
    simp only [List.cons_append, gosplit, if_neg hc, List.append_eq, gosplit_append ys hr]

theorem gosplitN2_no_mem {sep : Char} : ∀ {xs : List Char}, sep ∉ xs → gosplitN2 sep xs = [xs]
  | [], _ => by simp [gosplitN2]
  | c :: rest, h => by
    have hc : ¬ c = sep := fun hcs => h (by simp [hcs])
    have hr : sep ∉ rest := fun hm => h (by simp [hm])
    simp only [gosplitN2, if_neg hc, gosplitN2_no_mem hr]

theorem gosplitN2_append {sep : Char} :
    ∀ {xs : List Char} (ys : List Char), sep ∉ xs →
      gosplitN2 sep (xs ++ sep :: ys) = [xs, ys]
  | [], ys, _ => by simp [gosplitN2]
  | c :: rest, ys, h => by
    have hc : ¬ c = sep := fun hcs => h (by simp [hcs])
    have hr : sep ∉ rest := fun hm => h (by simp [hm])
    simp only [List.cons_append, gosplitN2, if_neg hc, List.append_eq, gosplitN2_append ys hr]

theorem godrop_append (xs ys : List Char) : godrop xs.length (xs ++ ys) = some ys := by
  simp [godrop, List.drop_left]

theorem gosplit_three (sep : Char) {x y z : List Char}
    (hx : sep ∉ x) (hy : sep ∉ y) (hz : sep ∉ z) :
    gosplit sep (x ++ sep :: (y ++ sep :: z)) = [x, y, z] := by
  rw [gosplit_append _ hx, gosplit_append _ hy, gosplit_no_mem hz]

/-- Line of ls-remote output pairing a revision with the HEAD reference. -/
def headLine (r : List Char) : List Char := r ++ '\t' :: "HEAD".toList

/-- Line of ls-remote output pairing a revision with a branch reference. -/
def branchLine (r b : List Char) : List Char := r ++ '\t' :: ("refs/heads/".toList ++ b)

theorem refsHeads_ne_HEAD (b : List Char) : "refs/heads/".toList ++ b ≠ "HEAD".toList := by
  intro h
  have hlen := congrArg List.length h
  simp [List.length_append] at hlen

theorem lf_not_mem_headLine {r : List Char} (hr : '\n' ∉ r) : '\n' ∉ headLine r := by
  simp only [headLine, List.mem_append, List.mem_cons]
  rintro (h | h | h)
  · exact hr h
  · exact absurd h (by decide)
  · revert h; decide

theorem lf_not_mem_branchLine {r b : List Char} (hr : '\n' ∉ r) (hb : '\n' ∉ b) :
    '\n' ∉ branchLine r b := by
  simp only [branchLine, List.mem_append, List.mem_cons]
  rintro (h | h | h | h)
  · exact hr h
  · exact absurd h (by decide)
  · revert h; decide
  · exact hb h

theorem gosplit_branchLine {r b : List Char} (hr : '\t' ∉ r) (hb : '\t' ∉ b) :
    gosplit '\t' (branchLine r b) = [r, "refs/heads/".toList ++ b] := by
  have hrb : '\t' ∉ "refs/heads/".toList ++ b := by
    simp only [List.mem_append]
    rintro (h | h)
    · revert h; decide
    · exact hb h
  rw [branchLine, gosplit_append _ hr, gosplit_no_mem hrb]

theorem gosplit_headLine {r : List Char} (hr : '\t' ∉ r) :
    gosplit '\t' (headLine r) = [r, "HEAD".toList] := by
  rw [headLine, gosplit_append _ hr, gosplit_no_mem (by decide)]

theorem gosplitN2_branchLine {r b : List Char} (hr : '\t' ∉ r) (hb : '\t' ∉ b) :
    gosplitN2 '\t' (branchLine r b) = [r, "refs/heads/".toList ++ b] := by
  have hrb : '\t' ∉ "refs/heads/".toList ++ b := by
    simp only [List.mem_append]
    rintro (h | h)
    · revert h; decide
    · exact hb h
  rw [branchLine, gosplitN2_append _ hr]

theorem gosplitN2_headLine {r : List Char} (hr : '\t' ∉ r) :
    gosplitN2 '\t' (headLine r) = [r, "HEAD".toList] := by
  rw [headLine, gosplitN2_append _ hr]

theorem godrop_refsHeads (b : List Char) :
    godrop 11 ("refs/heads/".toList ++ b) = some b := by
  have h : ("refs/heads/".toList).length = 11 := by decide
  rw [← h]
  exact godrop_append _ _

theorem g17Loop_headLine {r : List Char} (hr : '\t' ∉ r)
    (rest : List (List Char)) (branch revision : List Char) :
    g17LsRemoteLoop (headLine r :: rest) branch revision =
      g17LsRemoteLoop rest branch r := by
  simp [g17LsRemoteLoop, gosplit_headLine hr, List.headI]

theorem g17Loop_branchLine {r b : List Char} (hr : '\t' ∉ r) (hb : '\t' ∉ b)
    (rest : List (List Char)) (branch revision : List Char) :
    g17LsRemoteLoop (branchLine r b :: rest) branch revision =
      if r = revision ∧ branch ≠ "master".toList then g17LsRemoteLoop rest b revision
      else g17LsRemoteLoop rest branch revision := by
  simp only [g17LsRemoteLoop, gosplit_branchLine hr hb, List.get?, List.headI,
    if_neg (refsHeads_ne_HEAD b), godrop_refsHeads]

theorem guessLoop_headLine {r : List Char} (revision : List Char) (hr : '\t' ∉ r)
    (rest : List (List Char)) (branch : List Char) :
    guessBranchLoop revision (headLine r :: rest) branch =
      guessBranchLoop revision rest branch := by
  simp [guessBranchLoop, gosplitN2_headLine hr, List.headI]

theorem guessLoop_branchLine {r b : List Char} (revision : List Char)
    (hr : '\t' ∉ r) (hb : '\t' ∉ b) (rest : List (List Char)) (branch : List Char) :
    guessBranchLoop revision (branchLine r b :: rest) branch =
      if r = revision ∧ branch ≠ "master".toList then guessBranchLoop revision rest b
      else guessBranchLoop revision rest branch := by
  simp only [guessBranchLoop, gosplitN2_branchLine hr hb, List.get?, List.headI,
    godrop_refsHeads]
  by_cases hrr : r = revision
  · by_cases hbm : branch ≠ "master".toList
    · simp [hrr, hbm, refsHeads_ne_HEAD b]
    · simp [hrr, hbm, refsHeads_ne_HEAD b]
  · simp [hrr]

/-- C2: for ls-remote output in which the HEAD revision is reachable from two
branch names, one of which is "master", both branch-resolution parsers
(`parseGit17LsRemote` with the HEAD line first, and `guessBranch`) return
"master", whichever order the two branch lines appear in. -/
theorem masterTiebreak (r b : List Char)
    (hrt : '\t' ∉ r) (hrn : '\n' ∉ r) (hbt : '\t' ∉ b) (hbn : '\n' ∉ b) (hr0 : r ≠ []) :
    parseGit17LsRemote ((headLine r ++ '\n' ::
        (branchLine r "master".toList ++ '\n' :: branchLine r b)) ++ ['\n'])
      = some ("master".toList, r, none) ∧
    parseGit17LsRemote ((headLine r ++ '\n' ::
        (branchLine r b ++ '\n' :: branchLine r "master".toList)) ++ ['\n'])
      = some ("master".toList, r, none) ∧
    guessBranch ((headLine r ++ '\n' ::
        (branchLine r "master".toList ++ '\n' :: branchLine r b)) ++ ['\n']) r
      = some ("master".toList, none) ∧
    guessBranch ((headLine r ++ '\n' ::
        (branchLine r b ++ '\n' :: branchLine r "master".toList)) ++ ['\n']) r
      = some ("master".toList, none) := by
  have hmt : '\t' ∉ "master".toList := by decide
  have hmn : '\n' ∉ "master".toList := by decide
  have hH := lf_not_mem_headLine hrn
  have hBM := lf_not_mem_branchLine hrn hmn
  have hBb := lf_not_mem_branchLine hrn hbn
  have hneA : (headLine r ++ '\n' ::
      (branchLine r "master".toList ++ '\n' :: branchLine r b)) ++ ['\n'] ≠ [] := by simp
  have hneB : (headLine r ++ '\n' ::
      (branchLine r b ++ '\n' :: branchLine r "master".toList)) ++ ['\n'] ≠ [] := by simp
  have hsplitA := gosplit_three '\n' hH hBM hBb
  have hsplitB := gosplit_three '\n' hH hBb hBM
  have hloopA : g17LsRemoteLoop [headLine r, branchLine r "master".toList,
      branchLine r b] [] [] = some ("master".toList, r) := by
    rw [g17Loop_headLine hrt, g17Loop_branchLine hrt hmt, if_pos ⟨rfl, by decide⟩,
      g17Loop_branchLine hrt hbt, if_neg (fun h => h.2 rfl)]
    rfl
  have hloopB : g17LsRemoteLoop [headLine r, branchLine r b,
      branchLine r "master".toList] [] [] = some ("master".toList, r) := by
    rw [g17Loop_headLine hrt, g17Loop_branchLine hrt hbt, if_pos ⟨rfl, by decide⟩,
      g17Loop_branchLine hrt hmt]
    by_cases hbm : b = "master".toList
    · rw [if_neg (fun h => h.2 (by rw [hbm])), hbm]
      rfl
    · rw [if_pos ⟨rfl, hbm⟩]
      rfl
  have hgloopA : guessBranchLoop r [headLine r, branchLine r "master".toList,
      branchLine r b] [] = some "master".toList := by
    rw [guessLoop_headLine r hrt, guessLoop_branchLine r hrt hmt, if_pos ⟨rfl, by decide⟩,
      guessLoop_branchLine r hrt hbt, if_neg (fun h => h.2 rfl)]
    rfl
  have hgloopB : guessBranchLoop r [headLine r, branchLine r b,
      branchLine r "master".toList] [] = some "master".toList := by
    rw [guessLoop_headLine r hrt, guessLoop_branchLine r hrt hbt, if_pos ⟨rfl, by decide⟩,
      guessLoop_branchLine r hrt hmt]
    by_cases hbm : b = "master".toList
    · rw [if_neg (fun h => h.2 (by rw [hbm])), hbm]
      rfl
    · rw [if_pos ⟨rfl, hbm⟩]
      rfl
  refine ⟨?_, ?_, ?_, ?_⟩
  · simp only [parseGit17LsRemote, if_neg hneA, List.dropLast_concat, hsplitA, hloopA]
    simp [hr0]
  · simp only [parseGit17LsRemote, if_neg hneB, List.dropLast_concat, hsplitB, hloopB]
    simp [hr0]
  · simp only [guessBranch, if_neg hneA, List.dropLast_concat, hsplitA, hgloopA]
    simp
  · simp only [guessBranch, if_neg hneB, List.dropLast_concat, hsplitB, hgloopB]
    simp

/-- Witness for the master tie-break theorem at a concrete revision and a
concrete competing branch name, in both line orders. -/
theorem masterTiebreak_witness :
    parseGit17LsRemote "abc\tHEAD\nabc\trefs/heads/dev\nabc\trefs/heads/master\n".toList
      = some ("master".toList, "abc".toList, none) ∧
    guessBranch "abc\tHEAD\nabc\trefs/heads/dev\nabc\trefs/heads/master\n".toList "abc".toList
      = some ("master".toList, none) := by
  have h := masterTiebreak "abc".toList "dev".toList (by decide) (by decide)
    (by decide) (by decide) (by decide)
  refine ⟨?_, ?_⟩
  · have := h.2.1
    simpa using this
  · have := h.2.2.2
    simpa using this

/-- C3 counterexample: the HEAD revision "abc" is reachable from the two
non-master branches "alpha" and "beta" in that order, yet both parsers return
"beta", the last matching branch, not the first one found ("alpha"). -/
theorem firstMatch_counterexample :
    guessBranch "abc\trefs/heads/alpha\nabc\trefs/heads/beta\n".toList "abc".toList
      = some ("beta".toList, none) ∧
    parseGit17LsRemote "abc\tHEAD\nabc\trefs/heads/alpha\nabc\trefs/heads/beta\n".toList
      = some ("beta".toList, "abc".toList, none) ∧
    "beta".toList ≠ "alpha".toList := by decide

/-- C3 amended: with the HEAD revision reachable from two branch names,
neither of which is "master", the parsers return the LAST matching branch
name in the output, because each matching line overwrites the previous
guess while it is not "master". -/
theorem lastMatch (r b1 b2 : List Char)
    (hrt : '\t' ∉ r) (hrn : '\n' ∉ r) (hb1t : '\t' ∉ b1) (hb1n : '\n' ∉ b1)
    (hb2t : '\t' ∉ b2) (hb2n : '\n' ∉ b2) (hr0 : r ≠ [])
    (hb1m : b1 ≠ "master".toList) (hb2m : b2 ≠ "master".toList) (hb20 : b2 ≠ []) :
    parseGit17LsRemote ((headLine r ++ '\n' ::
        (branchLine r b1 ++ '\n' :: branchLine r b2)) ++ ['\n'])
      = some (b2, r, none) ∧
    guessBranch ((headLine r ++ '\n' ::
        (branchLine r b1 ++ '\n' :: branchLine r b2)) ++ ['\n']) r
      = some (b2, none) := by
  have hB1 := lf_not_mem_branchLine hrn hb1n
  have hB2 := lf_not_mem_branchLine hrn hb2n
  have hH := lf_not_mem_headLine hrn
  have hne : (headLine r ++ '\n' ::
      (branchLine r b1 ++ '\n' :: branchLine r b2)) ++ ['\n'] ≠ [] := by simp
  have hsplit := gosplit_three '\n' hH hB1 hB2
  have hloop : g17LsRemoteLoop [headLine r, branchLine r b1, branchLine r b2] [] []
      = some (b2, r) := by
    rw [g17Loop_headLine hrt, g17Loop_branchLine hrt hb1t, if_pos ⟨rfl, by decide⟩,
      g17Loop_branchLine hrt hb2t, if_pos ⟨rfl, hb1m⟩]
    rfl
  have hgloop : guessBranchLoop r [headLine r, branchLine r b1, branchLine r b2] []
      = some b2 := by
    rw [guessLoop_headLine r hrt, guessLoop_branchLine r hrt hb1t, if_pos ⟨rfl, by decide⟩,
      guessLoop_branchLine r hrt hb2t, if_pos ⟨rfl, hb1m⟩]
    rfl
  constructor
  · simp only [parseGit17LsRemote, if_neg hne, List.dropLast_concat, hsplit, hloop]
    simp [hr0, hb20]
  · simp only [guessBranch, if_neg hne, List.dropLast_concat, hsplit, hgloop]
    simp [hb20]

/-- Witness for the last-match theorem at the concrete branches "alpha" and
"beta". -/
theorem lastMatch_witness :
    parseGit17LsRemote "zzz\tHEAD\nzzz\trefs/heads/alpha\nzzz\trefs/heads/beta\n".toList
      = some ("beta".toList, "zzz".toList, none) ∧
    guessBranch "zzz\tHEAD\nzzz\trefs/heads/alpha\nzzz\trefs/heads/beta\n".toList "zzz".toList
      = some ("beta".toList, none) := by
  have h := lastMatch "zzz".toList "alpha".toList "beta".toList (by decide) (by decide)
    (by decide) (by decide) (by decide) (by decide) (by decide) (by decide)
    (by decide) (by decide)
  exact ⟨by simpa using h.1, by simpa using h.2⟩

/-- C5 counterexample: on the literal sample from the spec, with the
symbolic-ref field after the tab, `parseGit17LsRemote` returns the mangled
branch "eads/main" (slicing 11 bytes off "ref: refs/heads/main"), and
`parseGit28LsRemote` reports the branch-not-found error, so neither parser
yields the branch "main". -/
theorem lsRemoteSample_counterexample :
    parseGit17LsRemote "abc...def\tHEAD\nabc...def\tref: refs/heads/main\n".toList
      = some ("eads/main".toList, "abc...def".toList, none) ∧
    "eads/main".toList ≠ "main".toList ∧
    parseGit28LsRemote "abc...def\tHEAD\nabc...def\tref: refs/heads/main\n".toList
      = some ([], "abc...def".toList, some ParseErr.branchNotFound) := by decide

/-- C5 amended: on correctly formatted literal remote-listing output — for
the legacy parser a HEAD line followed by a branch-reference line, for the
modern parser a symref line "ref: refs/heads/main\tHEAD" followed by the
revision line — the parsers yield the branch "main" paired with the
revision, with no error. -/
theorem lsRemoteSample_parses :
    parseGit17LsRemote "abc...def\tHEAD\nabc...def\trefs/heads/main\n".toList
      = some ("main".toList, "abc...def".toList, none) ∧
    parseGit28LsRemote "ref: refs/heads/main\tHEAD\nabc...def\tHEAD\n".toList
      = some ("main".toList, "abc...def".toList, none) := by decide

/-- C1: whenever the captured stdout is shorter than 40 bytes, LocalRevision
(both strategies) returns an error and the older CheckGitRepoLocal returns
its failure value, the empty string; and any successfully returned local
revision has length exactly 40 under every strategy. -/
theorem localRevision_shortOutput (res : ExecResult) :
    (res.stdout.length < gitRevisionLength →
      (∀ rev, git28LocalRevision res ≠ Except.ok rev) ∧
      (∀ rev, git17LocalRevision res ≠ Except.ok rev) ∧
      CheckGitRepoLocal res = []) ∧
    (∀ rev, git28LocalRevision res = Except.ok rev → rev.length = gitRevisionLength) ∧
    (∀ rev, git17LocalRevision res = Except.ok rev → rev.length = gitRevisionLength) ∧
    (CheckGitRepoLocal res ≠ [] → (CheckGitRepoLocal res).length = gitRevisionLength) := by
  refine ⟨fun hlt => ⟨fun rev h => ?_, fun rev h => ?_, ?_⟩,
    fun rev h => ?_, fun rev h => ?_, fun h => ?_⟩
  · unfold git28LocalRevision at h
    split_ifs at h
  · unfold git17LocalRevision at h
    split_ifs at h
  · unfold CheckGitRepoLocal
    rw [if_neg]
    rintro ⟨-, hge⟩
    omega
  · unfold git28LocalRevision at h
    split_ifs at h with h1 h2
    injection h with h3
    subst h3
    simp only [List.length_take]
    omega
  · unfold git17LocalRevision at h
    split_ifs at h with h1 h2
    injection h with h3
    subst h3
    simp only [List.length_take]
    omega
  · unfold CheckGitRepoLocal at h ⊢
    split_ifs at h ⊢ with h1
    · simp only [List.length_take]
      omega
    · exact absurd rfl h

/-- Witness for the short-output theorem at output of 2 bytes. -/
theorem localRevision_shortOutput_witness :
    CheckGitRepoLocal ⟨"ab".toList, [], true⟩ = [] ∧
    git28LocalRevision ⟨"ab".toList, [], true⟩ ≠ Except.ok "ab".toList ∧
    git17LocalRevision ⟨"ab".toList, [], true⟩ ≠ Except.ok "ab".toList := by
  have h := localRevision_shortOutput ⟨"ab".toList, [], true⟩
  exact ⟨(h.1 (by decide)).2.2, (h.1 (by decide)).1 "ab".toList,
    (h.1 (by decide)).2.1 "ab".toList⟩

/-- C8 counterexample: for tool output of forty z characters, LocalRevision
succeeds and returns a string that is not made of hexadecimal digits, since
the code never validates the character set. -/
theorem localRevision_hex_counterexample :
    git28LocalRevision ⟨List.replicate 40 'z', [], true⟩
      = Except.ok (List.replicate 40 'z') ∧
    git17LocalRevision ⟨List.replicate 40 'z', [], true⟩
      = Except.ok (List.replicate 40 'z') ∧
    (List.replicate 40 'z').all isHexDigit = false := by decide

/-- C8 amended: every revision successfully returned by LocalRevision has
length exactly 40 and is precisely the first 40 bytes of the tool output;
the character set is not validated. -/
theorem localRevision_exact40 (res : ExecResult) (rev : List Char) :
    (git28LocalRevision res = Except.ok rev →
      rev.length = gitRevisionLength ∧ rev = res.stdout.take gitRevisionLength) ∧
    (git17LocalRevision res = Except.ok rev →
      rev.length = gitRevisionLength ∧ rev = res.stdout.take gitRevisionLength) := by
  constructor
  · intro h
    unfold git28LocalRevision at h
    split_ifs at h with h1 h2
    injection h with h3
    subst h3
    refine ⟨?_, rfl⟩
    simp only [List.length_take]
    omega
  · intro h
    unfold git17LocalRevision at h
    split_ifs at h with h1 h2
    injection h with h3
    subst h3
    refine ⟨?_, rfl⟩
    simp only [List.length_take]
    omega

/-- Witness for the exact-length theorem at a 41-byte output of hex digits
followed by a newline. -/
theorem localRevision_exact40_witness :
    (List.replicate 40 'a').length = gitRevisionLength := by
  have h := (localRevision_exact40 ⟨List.replicate 40 'a' ++ ['\n'], [], true⟩
    (List.replicate 40 'a')).1 (by decide)
  exact h.1

/-- C4 counterexample: a failed invocation whose stderr merely BEGINS with
the no-such-commit message but is not exactly equal to it still yields
false with no error, because the code matches by prefix; the claim that
every other non-zero exit is an error is therefore false as stated. -/
theorem containsPrefix_counterexample :
    git28Contains "abc".toList
      ⟨[], "error: no such commit abc\nEXTRA".toList, false⟩ = Except.ok false ∧
    "error: no such commit abc\nEXTRA".toList ≠ noSuchCommit "abc".toList := by decide

/-- C4 amended: on a non-zero exit, every containment check returns false
with no error exactly when stderr BEGINS with the formatted line
"error: no such commit <revision>\n" for the queried revision, and returns
the invocation error otherwise. -/
theorem containsNoSuchCommit (rev branch : List Char) (res : ExecResult)
    (hex : res.exitOk = false) :
    (List.isPrefixOf (noSuchCommit rev) res.stderr = true →
      git28Contains rev res = Except.ok false ∧
      git28RemoteContains rev res = Except.ok false ∧
      git17Contains rev branch res = Except.ok false ∧
      git17RemoteContains rev branch res = Except.ok false) ∧
    (List.isPrefixOf (noSuchCommit rev) res.stderr = false →
      git28Contains rev res = Except.error VCSErr.execErr ∧
      git28RemoteContains rev res = Except.error VCSErr.execErr ∧
      git17Contains rev branch res = Except.error VCSErr.execErr ∧
      git17RemoteContains rev branch res = Except.error VCSErr.execErr) := by
  constructor <;> intro h <;>
    simp [git28Contains, git28RemoteContains, git17Contains, git17RemoteContains, hex, h]

/-- Witness for the no-such-commit classification at a concrete revision,
with the exact message on one side and an unrelated stderr on the other. -/
theorem containsNoSuchCommit_witness :
    git28Contains "abc".toList ⟨[], noSuchCommit "abc".toList, false⟩ = Except.ok false ∧
    git28Contains "abc".toList ⟨[], "boom\n".toList, false⟩
      = Except.error VCSErr.execErr := by
  refine ⟨?_, ?_⟩
  · exact ((containsNoSuchCommit "abc".toList [] ⟨[], noSuchCommit "abc".toList, false⟩
      rfl).1 (by decide)).1
  · exact ((containsNoSuchCommit "abc".toList [] ⟨[], "boom\n".toList, false⟩
      rfl).2 (by decide)).1

/-- C9: on a zero exit, each containment check returns true exactly when
stdout equals its expected literal listing — "contains\n" for the modern
strategy, and for the legacy strategy the branch line in its two accepted
forms locally or the single remote-branch line — and any other stdout
yields false with no error. -/
theorem containsZeroExit (rev branch : List Char) (res : ExecResult)
    (hex : res.exitOk = true) :
    (git28Contains rev res = Except.ok true ↔ res.stdout = "contains\n".toList) ∧
    (res.stdout ≠ "contains\n".toList → git28Contains rev res = Except.ok false) ∧
    (git28RemoteContains rev res = Except.ok true ↔ res.stdout = "contains\n".toList) ∧
    (res.stdout ≠ "contains\n".toList → git28RemoteContains rev res = Except.ok false) ∧
    (git17Contains rev branch res = Except.ok true ↔
      (res.stdout = "* ".toList ++ branch ++ "\n".toList ∨
       res.stdout = "  ".toList ++ branch ++ "\n".toList)) ∧
    (res.stdout ≠ "* ".toList ++ branch ++ "\n".toList →
      res.stdout ≠ "  ".toList ++ branch ++ "\n".toList →
      git17Contains rev branch res = Except.ok false) ∧
    (git17RemoteContains rev branch res = Except.ok true ↔
      res.stdout = "  origin/".toList ++ branch ++ "\n".toList) ∧
    (res.stdout ≠ "  origin/".toList ++ branch ++ "\n".toList →
      git17RemoteContains rev branch res = Except.ok false) := by
  refine ⟨?_, fun h => ?_, ?_, fun h => ?_, ?_, fun h1 h2 => ?_, ?_, fun h => ?_⟩ <;>
    simp_all [git28Contains, git28RemoteContains, git17Contains, git17RemoteContains, hex]

/-- Witness for the zero-exit containment theorem at the literal marker and
at an arbitrary other output. -/
theorem containsZeroExit_witness :
    git28Contains "abc".toList ⟨"contains\n".toList, [], true⟩ = Except.ok true ∧
    git28Contains "abc".toList ⟨"something else\n".toList, [], true⟩ = Except.ok false ∧
    git17Contains "abc".toList "master".toList ⟨"* master\n".toList, [], true⟩
      = Except.ok true := by
  refine ⟨?_, ?_, ?_⟩
  · exact (containsZeroExit "abc".toList [] ⟨"contains\n".toList, [], true⟩ rfl).1.mpr rfl
  · exact (containsZeroExit "abc".toList [] ⟨"something else\n".toList, [], true⟩
      rfl).2.1 (by decide)
  · exact (containsZeroExit "abc".toList "master".toList ⟨"* master\n".toList, [], true⟩
      rfl).2.2.2.2.1.mpr (Or.inl (by decide))

/-- C6: when the repository has no origin remote — git emits the exact
no-such-remote stderr for `remote get-url`, the origin-not-a-repository
stderr prefix for ls-remote, or `git remote -v` output in which the parser
finds no origin fetch line — every remote-reaching operation returns the
dedicated `ErrNoRemote` error, never a generic failure. -/
theorem noRemoteClassified (resA resB resC resD showC showD : ExecResult) :
    (resA.exitOk = false → resA.stderr = noSuchRemoteOrigin →
      git28RemoteURL resA = Except.error VCSErr.errNoRemote) ∧
    (resB.exitOk = true → ∀ e, parseGit17Remote resB.stdout = some (Except.error e) →
      git17RemoteURL resB = some (Except.error VCSErr.errNoRemote)) ∧
    (resC.exitOk = false → List.isPrefixOf originNotRepo resC.stderr = true →
      git28RemoteBranchAndRevision resC showC = some (Except.error VCSErr.errNoRemote)) ∧
    (resD.exitOk = false → List.isPrefixOf originNotRepo resD.stderr = true →
      git17RemoteBranchAndRevision resD showD = some (Except.error VCSErr.errNoRemote)) := by
  refine ⟨fun h1 h2 => ?_, fun h1 e h2 => ?_, fun h1 h2 => ?_, fun h1 h2 => ?_⟩
  · simp [git28RemoteURL, h1, h2]
  · simp [git17RemoteURL, h1, h2]
  · simp [git28RemoteBranchAndRevision, h1, h2]
  · simp [git17RemoteBranchAndRevision, h1, h2]

/-- Witness for the no-remote classification: exact stderr for get-url, empty
`remote -v` output, and the ls-remote stderr prefix, for both strategies. -/
theorem noRemoteClassified_witness :
    git28RemoteURL ⟨[], noSuchRemoteOrigin, false⟩ = Except.error VCSErr.errNoRemote ∧
    git17RemoteURL ⟨[], [], true⟩ = some (Except.error VCSErr.errNoRemote) ∧
    git28RemoteBranchAndRevision ⟨[], originNotRepo, false⟩ ⟨[], [], true⟩
      = some (Except.error VCSErr.errNoRemote) ∧
    git17RemoteBranchAndRevision ⟨[], originNotRepo, false⟩ ⟨[], [], true⟩
      = some (Except.error VCSErr.errNoRemote) := by
  have h := noRemoteClassified ⟨[], noSuchRemoteOrigin, false⟩ ⟨[], [], true⟩
    ⟨[], originNotRepo, false⟩ ⟨[], originNotRepo, false⟩ ⟨[], [], true⟩ ⟨[], [], true⟩
  exact ⟨h.1 rfl rfl, h.2.1 rfl "no origin remote" (by decide),
    h.2.2.1 rfl (by decide), h.2.2.2 rfl (by decide)⟩

/-- C7: when ls-remote succeeds but its output lacks the symref HEAD marker,
so the parser reports the branch-not-found sentinel while still extracting a
revision, the modern RemoteBranchAndRevision does not fail: the per-directory
variant falls back to parsing `git remote show origin`, and the remote-URL
variant falls back to `guessBranch` over the same output, each returning the
fallback branch together with the already-extracted revision. -/
theorem symrefFallback (lsRes showRes : ExecResult) (b0 rev gb br : List Char)
    (hex : lsRes.exitOk = true)
    (hparse : parseGit28LsRemote lsRes.stdout = some (b0, rev, some ParseErr.branchNotFound)) :
    (remoteBranch showRes = Except.ok br →
      git28RemoteBranchAndRevision lsRes showRes = some (Except.ok (br, rev))) ∧
    (guessBranch lsRes.stdout rev = some (gb, none) →
      remoteGit28RemoteBranchAndRevision lsRes = some (Except.ok (gb, rev))) := by
  constructor <;> intro h <;>
    simp [git28RemoteBranchAndRevision, remoteGit28RemoteBranchAndRevision, hex, hparse, h]

/-- Witness for the symref fallback: ls-remote output with no symref marker,
and a remote-show output advertising the branch "dev". -/
theorem symrefFallback_witness :
    git28RemoteBranchAndRevision ⟨"abc\tHEAD\nabc\trefs/heads/dev\n".toList, [], true⟩
        ⟨"origin\n  HEAD branch: dev\n".toList, [], true⟩
      = some (Except.ok ("dev".toList, "abc".toList)) ∧
    remoteGit28RemoteBranchAndRevision ⟨"abc\tHEAD\nabc\trefs/heads/dev\n".toList, [], true⟩
      = some (Except.ok ("dev".toList, "abc".toList)) := by
  have h := symrefFallback ⟨"abc\tHEAD\nabc\trefs/heads/dev\n".toList, [], true⟩
    ⟨"origin\n  HEAD branch: dev\n".toList, [], true⟩ [] "abc".toList "dev".toList
    "dev".toList rfl (by decide)
  exact ⟨h.1 (by decide), h.2 (by decide)⟩

theorem gosplitN2_of_mem {sep : Char} :
    ∀ (xs : List Char), sep ∈ xs → ∃ a b, gosplitN2 sep xs = [a, b]
  | [], h => absurd h (by simp)
  | c :: rest, h => by
    by_cases hc : c = sep
    · exact ⟨[], rest, by simp [gosplitN2, hc]⟩
    · have hr : sep ∈ rest := by
        rcases List.mem_cons.mp h with h1 | h1
        · exact absurd h1.symm hc
        · exact h1
      obtain ⟨a, b, hab⟩ := gosplitN2_of_mem rest hr
      exact ⟨c :: a, b, by simp [gosplitN2, hc, hab]⟩

theorem gosplit_two_of_mem {sep : Char} :
    ∀ (xs : List Char), sep ∈ xs → ∃ a b l, gosplit sep xs = a :: b :: l
  | [], h => absurd h (by simp)
  | c :: rest, h => by
    by_cases hc : c = sep
    · obtain ⟨p, ps, hps⟩ : ∃ p ps, gosplit sep rest = p :: ps := by
        cases hg : gosplit sep rest with
        | nil => exact absurd hg (gosplit_ne_nil sep rest)
        | cons p ps => exact ⟨p, ps, rfl⟩
      exact ⟨[], p, ps, by simp [gosplit, hc, hps]⟩
    · have hr : sep ∈ rest := by
        rcases List.mem_cons.mp h with h1 | h1
        · exact absurd h1.symm hc
        · exact h1
      obtain ⟨a, b, l, habl⟩ := gosplit_two_of_mem rest hr
      exact ⟨c :: a, b, l, by simp [gosplit, hc, habl]⟩

theorem g28Loop_isSome : ∀ (lines : List (List Char)) (branch revision : List Char),
    (∀ line ∈ lines, '\t' ∈ line) → (g28LsRemoteLoop lines branch revision).isSome
  | [], branch, revision, _ => by
    simp only [g28LsRemoteLoop]
    split <;> simp
  | line :: rest, branch, revision, h => by
    obtain ⟨a, b, hab⟩ := gosplitN2_of_mem line (h line (List.mem_cons_self line rest))
    have hget : (gosplitN2 '\t' line).get? 1 = some b := by rw [hab]; rfl
    have ih := fun br rv => g28Loop_isSome rest br rv
      (fun l hl => h l (List.mem_cons_of_mem line hl))
    simp only [g28LsRemoteLoop, hget]
    repeat' split
    all_goals first | simp | exact ih _ _

theorem guessLoop_isSome :
    ∀ (revision : List Char) (lines : List (List Char)) (branch : List Char),
    (∀ line ∈ lines, '\t' ∈ line) →
    (∀ line ∈ lines, (gosplitN2 '\t' line).getD 1 [] = "HEAD".toList ∨
      11 ≤ ((gosplitN2 '\t' line).getD 1 []).length) →
    (guessBranchLoop revision lines branch).isSome
  | _, [], branch, _, _ => by simp [guessBranchLoop]
  | revision, line :: rest, branch, h1, h2 => by
    obtain ⟨a, b, hab⟩ := gosplitN2_of_mem line (h1 line (List.mem_cons_self line rest))
    have hget : (gosplitN2 '\t' line).get? 1 = some b := by rw [hab]; rfl
    have hgetD : (gosplitN2 '\t' line).getD 1 [] = b := by rw [hab]; rfl
    have ih := fun br => guessLoop_isSome revision rest br
      (fun l hl => h1 l (List.mem_cons_of_mem line hl))
      (fun l hl => h2 l (List.mem_cons_of_mem line hl))
    simp only [guessBranchLoop, hget]
    split
    · exact ih branch
    · rename_i hcond
      push_neg at hcond
      have hlen : 11 ≤ b.length := by
        rcases h2 line (List.mem_cons_self line rest) with hh | hh
        · rw [hgetD] at hh
          exact absurd hh hcond.2
        · rw [hgetD] at hh
          exact hh
      have hdrop : godrop 11 b = some (b.drop 11) := by simp [godrop, hlen]
      split
      · simp only [hdrop]
        exact ih _
      · exact ih branch

theorem g17Loop_isSome : ∀ (lines : List (List Char)) (branch revision : List Char),
    (∀ line ∈ lines, '\t' ∈ line) →
    (∀ line ∈ lines, (gosplit '\t' line).getD 1 [] = "HEAD".toList ∨
      11 ≤ ((gosplit '\t' line).getD 1 []).length) →
    (g17LsRemoteLoop lines branch revision).isSome
  | [], branch, revision, _, _ => by simp [g17LsRemoteLoop]
  | line :: rest, branch, revision, h1, h2 => by
    obtain ⟨a, b, l, habl⟩ := gosplit_two_of_mem line (h1 line (List.mem_cons_self line rest))
    have hget : (gosplit '\t' line).get? 1 = some b := by rw [habl]; rfl
    have hgetD : (gosplit '\t' line).getD 1 [] = b := by rw [habl]; rfl
    have ih := fun br rv => g17Loop_isSome rest br rv
      (fun l2 hl => h1 l2 (List.mem_cons_of_mem line hl))
      (fun l2 hl => h2 l2 (List.mem_cons_of_mem line hl))
    simp only [g17LsRemoteLoop, hget]
    split
    · exact ih branch _
    · rename_i hne
      have hlen : 11 ≤ b.length := by
        rcases h2 line (List.mem_cons_self line rest) with hh | hh
        · rw [hgetD] at hh
          exact absurd hh hne
        · rw [hgetD] at hh
          exact hh
      have hdrop : godrop 11 b = some (b.drop 11) := by simp [godrop, hlen]
      split
      · simp only [hdrop]
        exact ih _ _
      · exact ih branch revision

theorem g17RemoteLoop_isSome : ∀ (lines : List (List Char)),
    (∀ line ∈ lines, '\t' ∈ line) → (g17RemoteLoop lines).isSome
  | [], _ => by simp [g17RemoteLoop]
  | line :: rest, h => by
    obtain ⟨a, b, l, habl⟩ := gosplit_two_of_mem line (h line (List.mem_cons_self line rest))
    have hget : (gosplit '\t' line).get? 1 = some b := by rw [habl]; rfl
    have ih := g17RemoteLoop_isSome rest (fun l2 hl => h l2 (List.mem_cons_of_mem line hl))
    simp only [g17RemoteLoop, hget]
    split
    · exact ih
    · split
      · exact ih
      · simp

/-- C10 amended: the pure output parsers are total — they return a result or
an error, never panicking — on every input in which each line contains a tab
and the field after the first tab is either "HEAD" or at least 11 bytes (the
length of "refs/heads/") long; a line without a tab, however, makes all four
parsers index out of bounds, so they are not total on arbitrary inputs. -/
theorem parsersTotal (out revision : List Char)
    (h1 : ∀ line ∈ gosplit '\n' out.dropLast, '\t' ∈ line)
    (h2 : ∀ line ∈ gosplit '\n' out.dropLast,
      (gosplitN2 '\t' line).getD 1 [] = "HEAD".toList ∨
        11 ≤ ((gosplitN2 '\t' line).getD 1 []).length)
    (h3 : ∀ line ∈ gosplit '\n' out.dropLast,
      (gosplit '\t' line).getD 1 [] = "HEAD".toList ∨
        11 ≤ ((gosplit '\t' line).getD 1 []).length) :
    (parseGit28LsRemote out).isSome ∧ (parseGit17LsRemote out).isSome ∧
    (guessBranch out revision).isSome ∧ (parseGit17Remote out).isSome := by
  by_cases hout : out = []
  · simp [parseGit28LsRemote, parseGit17LsRemote, guessBranch, parseGit17Remote, hout]
  · refine ⟨?_, ?_, ?_, ?_⟩
    · simpa [parseGit28LsRemote, hout] using g28Loop_isSome (gosplit '\n' out.dropLast) [] [] h1
    · have hl := g17Loop_isSome (gosplit '\n' out.dropLast) [] [] h1 h3
      obtain ⟨⟨br, rv⟩, hbr⟩ := Option.isSome_iff_exists.mp hl
      simp only [parseGit17LsRemote, if_neg hout, hbr]
      split <;> simp
    · have hl := guessLoop_isSome revision (gosplit '\n' out.dropLast) [] h1 h2
      obtain ⟨br, hbr⟩ := Option.isSome_iff_exists.mp hl
      simp only [guessBranch, if_neg hout, hbr]
      split <;> simp
    · have hl := g17RemoteLoop_isSome (gosplit '\n' out.dropLast) h1
      obtain ⟨u, hu⟩ := Option.isSome_iff_exists.mp hl
      simp only [parseGit17Remote, if_neg hout, hu]
      cases u <;> simp

/-- Witness for the totality theorem at a concrete two-line ls-remote
output. -/
theorem parsersTotal_witness :
    (parseGit28LsRemote "abc\tHEAD\nabc\trefs/heads/dev\n".toList).isSome ∧
    (parseGit17LsRemote "abc\tHEAD\nabc\trefs/heads/dev\n".toList).isSome ∧
    (guessBranch "abc\tHEAD\nabc\trefs/heads/dev\n".toList "abc".toList).isSome ∧
    (parseGit17Remote "abc\tHEAD\nabc\trefs/heads/dev\n".toList).isSome :=
  parsersTotal "abc\tHEAD\nabc\trefs/heads/dev\n".toList "abc".toList
    (by decide) (by decide) (by decide)

/-- C10 counterexample: on output consisting of a single line with no tab
character, all four parsers reach the out-of-range index `parts[1]` — a Go
runtime panic, modelled by `none` — so they are not total on inputs
containing a line with no tab. -/
theorem parsersPanic_counterexample :
    parseGit28LsRemote "hello\n".toList = none ∧
    parseGit17LsRemote "hello\n".toList = none ∧
    guessBranch "hello\n".toList "abc".toList = none ∧
    parseGit17Remote "hello\n".toList = none := by decide
